import Mathlib

/-!
Shallow embedding of the kyev in-memory key/value server (Rust sources:
src/resp/src/lib.rs, src/server/src/command.rs, src/server/src/store.rs,
src/server/src/transaction.rs, src/server/src/main.rs) together with
theorems settling the specification claims.

Conventions of the embedding:
* Byte buffers are modelled at the character level as `List Char`; all
  framing bytes of the protocol are ASCII, and UTF-8 never embeds an ASCII
  byte inside a multi-byte sequence, so splitting at characters is faithful.
  The byte length of a string is recovered by `utf8Len` (the sum of the
  UTF-8 sizes of its characters).
* Machine integers are `Int`/`Nat` with the Rust bounds checked explicitly
  where the source checks them (`parse::<i64>`, `parse::<u64>`,
  `parse::<usize>` fail on overflow).
* Fallible Rust code returns `Except`/`Option`; a `panic!` or `unwrap()` on
  `None`/`Err` is modelled as the `Option.none` outcome of the embedding.
* Timestamps (`PrimitiveDateTime`) are integers counting milliseconds; the
  ambient clock is passed explicitly as a `now : Int` argument.
-/

namespace Kyev

/-- The five RSP value variants of src/resp/src/lib.rs (enum Value).
Integers are `i64` in the source; the embedding uses `Int` and states the
`i64` range where a claim depends on it. -/
inductive Value where
  | array (a : List Value)
  | simpleString (s : String)
  | bulkString (s : String)
  | error (s : String)
  | integer (i : Int)

/-- Decode failures of src/resp/src/lib.rs (enum Error): an incomplete
frame, or a syntactically invalid one. -/
inductive RespError where
  | incomplete
  | invalid
deriving DecidableEq

/-- `Value::to_string` of src/resp/src/lib.rs: the payload for simple and
bulk strings, `None` otherwise. -/
def valueToString : Value → Option String
  | .simpleString s => some s
  | .bulkString s => some s
  | _ => none

/-- UTF-8 byte size of one character (what `s.bytes().len()` counts). -/
def charUtf8Size (c : Char) : Nat :=
  if c.val < 0x80 then 1 else if c.val < 0x800 then 2
  else if c.val < 0x10000 then 3 else 4

/-- UTF-8 byte length of a character list (`String::bytes().len()`). -/
def utf8Len (cs : List Char) : Nat :=
  cs.foldr (fun c n => charUtf8Size c + n) 0

/-- Rust `char::is_whitespace` (the Unicode White_Space property), which is
what `str::trim_end` strips. -/
def rustIsWhitespace (c : Char) : Bool :=
  (9 ≤ c.val ∧ c.val ≤ 13) ∨ c.val = 32 ∨ c.val = 0x85 ∨ c.val = 0xA0 ∨
    c.val = 0x1680 ∨ (0x2000 ≤ c.val ∧ c.val ≤ 0x200A) ∨ c.val = 0x2028 ∨
    c.val = 0x2029 ∨ c.val = 0x202F ∨ c.val = 0x205F ∨ c.val = 0x3000

/-- Rust `str::trim_end`: drop trailing whitespace. -/
def trimEnd (cs : List Char) : List Char :=
  (cs.reverse.dropWhile rustIsWhitespace).reverse

/-- `BufRead::read_line`: split the buffer after the first LF byte (or at
the end of input), returning the line read and the rest. -/
def readLine : List Char → List Char × List Char
  | [] => ([], [])
  | c :: cs =>
    if c = '\n' then ([c], cs)
    else
      let p := readLine cs
      (c :: p.1, p.2)

/-- Whether a line ends with the two-byte delimiter CR LF
(`buf.ends_with(DELIMITER)`). -/
def endsWithCrlf (cs : List Char) : Bool :=
  match cs.reverse with
  | '\n' :: '\r' :: _ => true
  | _ => false

/-- Accumulating decimal scan: the core loop of Rust `from_str_radix` for
base 10 (without the overflow check, which is applied separately as a bound
on the final value). Fails on any non-ASCII-digit character. -/
def parseDigitsAux : List Char → Nat → Option Nat
  | [], a => some a
  | c :: cs, a =>
    if c.isDigit then parseDigitsAux cs (a * 10 + (c.toNat - 48)) else none

/-- Unsigned decimal scan requiring at least one digit. -/
def parseDigits : List Char → Option Nat
  | [] => none
  | cs => parseDigitsAux cs 0

/-- Rust `str::parse::<u64>` / `parse::<usize>` (64-bit): optional leading
`+`, one or more digits, overflow above `2^64 - 1` fails. -/
def parseU64 (cs : List Char) : Option Nat :=
  match cs with
  | [] => none
  | c :: rest =>
    if c = '+' then
      (parseDigits rest).bind fun n => if n < 2 ^ 64 then some n else none
    else if c = '-' then none
    else (parseDigits (c :: rest)).bind fun n => if n < 2 ^ 64 then some n else none

/-- Rust `str::parse::<i64>`: optional sign, one or more digits, result
within the signed 64-bit range. -/
def parseI64 (cs : List Char) : Option Int :=
  match cs with
  | [] => none
  | c :: rest =>
    if c = '+' then
      (parseDigits rest).bind fun n =>
        if n ≤ 2 ^ 63 - 1 then some (n : Int) else none
    else if c = '-' then
      (parseDigits rest).bind fun n =>
        if n ≤ 2 ^ 63 then some (-(n : Int)) else none
    else
      (parseDigits (c :: rest)).bind fun n =>
        if n ≤ 2 ^ 63 - 1 then some (n : Int) else none

/-- Canonical decimal printing (fuel-structured so that it evaluates by
`rfl`): digits of `n` most significant first, prepended to `acc`. -/
def natToCharsAux : Nat → Nat → List Char → List Char
  | 0, _, acc => acc
  | fuel + 1, n, acc =>
    if n = 0 then acc
    else natToCharsAux fuel (n / 10) (Nat.digitChar (n % 10) :: acc)

/-- Rust `format!` of an unsigned integer in decimal. -/
def natToChars (n : Nat) : List Char :=
  if n = 0 then ['0'] else natToCharsAux n n []

/-- Rust `format!` of an `i64` in decimal (what `:{}` and `Display` emit). -/
def intToChars (i : Int) : List Char :=
  if i < 0 then '-' :: natToChars i.natAbs else natToChars i.toNat

/-- The CR LF delimiter. -/
def crlf : List Char := ['\r', '\n']

mutual
/-- `resp::encode` of src/resp/src/lib.rs, at the character level. -/
def encodeL : Value → List Char
  | .simpleString s => '+' :: s.data ++ crlf
  | .error s => '-' :: s.data ++ crlf
  | .integer i => ':' :: intToChars i ++ crlf
  | .bulkString s => '$' :: natToChars (utf8Len s.data) ++ crlf ++ s.data ++ crlf
  | .array a => '*' :: natToChars a.length ++ crlf ++ encodeListL a

/-- Concatenated encodings of the elements of an array. -/
def encodeListL : List Value → List Char
  | [] => []
  | v :: vs => encodeL v ++ encodeListL vs
end

/-- `resp::encode` on strings (the source returns a `String`). -/
def encode (v : Value) : String :=
  String.mk (encodeL v)

/-- `decode_simple_string`: read a line, require the CR LF ending, return
the trimmed payload. -/
def decodeSimpleString (cs : List Char) : Except RespError (Value × List Char) :=
  let p := readLine cs
  if endsWithCrlf p.1 then .ok (.simpleString (String.mk (trimEnd p.1)), p.2)
  else .error .incomplete

/-- `decode_error`, same shape as `decode_simple_string`. -/
def decodeError (cs : List Char) : Except RespError (Value × List Char) :=
  let p := readLine cs
  if endsWithCrlf p.1 then .ok (.error (String.mk (trimEnd p.1)), p.2)
  else .error .incomplete

/-- `decode_integer`: read a line, require CR LF, parse the trimmed payload
as an `i64` (failure is `Invalid`). -/
def decodeInteger (cs : List Char) : Except RespError (Value × List Char) :=
  let p := readLine cs
  if endsWithCrlf p.1 then
    match parseI64 (trimEnd p.1) with
    | some i => .ok (.integer i, p.2)
    | none => .error .invalid
  else .error .incomplete

/-- `read_int_with_clrf`: read a line, require CR LF, parse the trimmed
payload as a `usize` (failure is `Invalid`). -/
def readIntWithCrlf (cs : List Char) : Except RespError (Nat × List Char) :=
  let p := readLine cs
  if endsWithCrlf p.1 then
    match parseU64 (trimEnd p.1) with
    | some n => .ok (n, p.2)
    | none => .error .invalid
  else .error .incomplete

/-- `read_exact` of `n` bytes followed by the UTF-8 check: take characters
totalling exactly `n` UTF-8 bytes. Too little input is `Incomplete` (the
I/O shortfall); a split that falls inside a character is the UTF-8 failure,
`Invalid`. -/
def takeUtf8 : Nat → List Char → Except RespError (List Char × List Char)
  | n, [] => if n = 0 then .ok ([], []) else .error .incomplete
  | n, c :: cs' =>
    if n = 0 then .ok ([], c :: cs')
    else if charUtf8Size c ≤ n then
      (takeUtf8 (n - charUtf8Size c) cs').map fun p => (c :: p.1, p.2)
    else .error .invalid

/-- `decode_bulk_string`: length prefix, exactly that many payload bytes,
then the trailing CR LF (a mismatch there is `Incomplete` in the source). -/
def decodeBulkString (cs : List Char) : Except RespError (Value × List Char) :=
  (readIntWithCrlf cs).bind fun (n, cs) =>
    (takeUtf8 n cs).bind fun (payload, cs) =>
      if utf8Len payload ≠ n then .error .incomplete
      else
        match cs with
        | c1 :: c2 :: rest =>
          if c1 = '\r' ∧ c2 = '\n' then .ok (.bulkString (String.mk payload), rest)
          else .error .incomplete
        | _ => .error .incomplete

mutual
/-- `do_decode` of src/resp/src/lib.rs: dispatch on the first byte. The
`fuel` argument is a termination device only; it strictly exceeds the
number of recursive calls whenever it exceeds the length of the frame
being decoded (`decode` below supplies `length + 1`). -/
def doDecode : Nat → List Char → Except RespError (Value × List Char)
  | 0, _ => .error .incomplete
  | _ + 1, [] => .error .incomplete
  | fuel + 1, c :: cs =>
    if c = '+' then decodeSimpleString cs
    else if c = '$' then decodeBulkString cs
    else if c = '*' then
      (readIntWithCrlf cs).bind fun (m, cs) =>
        (decodeList fuel m cs).map fun p => (.array p.1, p.2)
    else if c = '-' then decodeError cs
    else if c = ':' then decodeInteger cs
    else .error .invalid

/-- The element loop of `decode_array`: decode `m` consecutive values. -/
def decodeList : Nat → Nat → List Char → Except RespError (List Value × List Char)
  | 0, _, _ => .error .incomplete
  | _ + 1, 0, cs => .ok ([], cs)
  | fuel + 1, m + 1, cs =>
    (doDecode fuel cs).bind fun (v, cs) =>
      (decodeList fuel m cs).map fun p => (v :: p.1, p.2)
end

/-- `resp::decode` of src/resp/src/lib.rs: decode one value off the front
of the buffer (trailing bytes are ignored by the source as well). -/
def decode (s : String) : Except RespError Value :=
  (doDecode (s.data.length + 1) s.data).map Prod.fst

/-- The recognized actions of src/server/src/command.rs (enum Action).
Note: the source enum has no `ClientId` variant, although the dispatcher in
src/server/src/main.rs matches on one. -/
inductive Action where
  | Ping
  | Echo
  | Set
  | SetEx
  | SetNx
  | Get
  | Expire
  | PExpire
  | Ttl
  | Multi
  | Exec
  | Discard
  | Watch
  | Unwatch
deriving DecidableEq

/-- `impl Display for Action`: canonical lower-case names. -/
def actionName : Action → String
  | .Ping => "ping"
  | .Echo => "echo"
  | .Set => "set"
  | .SetEx => "setex"
  | .SetNx => "setnx"
  | .Get => "get"
  | .Expire => "expire"
  | .PExpire => "pexpire"
  | .Ttl => "ttl"
  | .Multi => "multi"
  | .Exec => "exec"
  | .Discard => "discard"
  | .Watch => "watch"
  | .Unwatch => "unwatch"

/-- enum Lock of src/server/src/command.rs. -/
inductive Lock where
  | Read
  | Write
deriving DecidableEq

/-- enum CommandOpt of src/server/src/command.rs. TTLs are `u64` in the
source, modelled as `Nat` (the parser's `parse::<u64>` enforces the bound). -/
inductive CommandOpt where
  | SetEx (ttl : Nat)
  | SetPx (ttl : Nat)
  | SetNx
  | SetXx
  | SetKeepTtl
deriving DecidableEq

/-- enum ParseCommandErrorKind of src/server/src/command.rs. -/
inductive ParseCommandErrorKind where
  | MustBeArray
  | IsEmpty
  | UnknownCommand
  | InvalidArgs
  | InvalidCommand
  | WrongNumberArgs
  | InvalidTtl
  | SyntaxError
deriving DecidableEq

/-- struct ParseCommandError: a kind plus the action and free-form context
carried for formatted messaging. -/
structure ParseCommandError where
  kind : ParseCommandErrorKind
  action : Option Action
  otherContext : Option String
deriving DecidableEq

/-- struct Command. The source keeps `opts` in a `HashSet`; the embedding
uses a duplicate-free list in insertion order. -/
structure Command where
  action : Action
  args : List String
  opts : List CommandOpt
  lock : Option Lock
deriving DecidableEq

/-- `Command::new` (empty option set). -/
def Command.new (action : Action) (args : List String) (lock : Option Lock) : Command :=
  ⟨action, args, [], lock⟩

/-- Rust `str::to_lowercase`, character by character. The Unicode special
cases do not matter here: every comparison made against its result is with
a plain ASCII keyword. -/
def toLowerStr (s : String) : String :=
  String.mk (s.data.map Char.toLower)

/-- `Action::parse` of src/server/src/command.rs: lower-case the token and
compare against the known names; anything else is `UnknownCommand` carrying
the lowered token. -/
def Action.parse (s : String) : Except ParseCommandError Action :=
  let s := toLowerStr s
  if s = "ping" then .ok .Ping
  else if s = "echo" then .ok .Echo
  else if s = "set" then .ok .Set
  else if s = "setex" then .ok .SetEx
  else if s = "setnx" then .ok .SetNx
  else if s = "get" then .ok .Get
  else if s = "expire" then .ok .Expire
  else if s = "pexpire" then .ok .PExpire
  else if s = "ttl" then .ok .Ttl
  else if s = "multi" then .ok .Multi
  else if s = "exec" then .ok .Exec
  else if s = "discard" then .ok .Discard
  else if s = "watch" then .ok .Watch
  else if s = "unwatch" then .ok .Unwatch
  else .error ⟨.UnknownCommand, none, some s⟩

/-- `impl Display for ParseCommandError`. The `unwrap()` calls on the
carried action / context are modelled as `Option.map`: `none` is the
panicking outcome. -/
def displayParseError (e : ParseCommandError) : Option String :=
  match e.kind with
  | .MustBeArray => some "ERR must be an array"
  | .IsEmpty => some "ERR array must contain at least one value"
  | .UnknownCommand =>
    e.otherContext.map fun c => "ERR Unknown or disabled command '" ++ c ++ "'"
  | .InvalidArgs => some "ERR invalid arguments for command"
  | .InvalidCommand => some "ERR command values must be Bulk Strings"
  | .WrongNumberArgs =>
    e.action.map fun a =>
      "ERR wrong number of arguments for '" ++ actionName a ++ "' command"
  | .InvalidTtl =>
    e.action.map fun a => "ERR invalid expire time in " ++ actionName a
  | .SyntaxError => some "ERR syntax error"

/-- `expect_max_args`: at most `max` arguments after the action token. -/
def expectMaxArgs (action : Action) (v : List Value) (max : Nat) :
    Except ParseCommandError Unit :=
  if v.length > max + 1 then .error ⟨.WrongNumberArgs, some action, none⟩
  else .ok ()

/-- `next_arg`: take the next value off the iterator (`WrongNumberArgs` for
the given action when exhausted) and stringify it (a non-string value is the
converted resp error, `InvalidArgs` with no action). -/
def nextArg (l : List Value) (action : Action) : Except ParseCommandError String :=
  match l with
  | [] => .error ⟨.WrongNumberArgs, some action, none⟩
  | v :: _ =>
    match valueToString v with
    | some s => .ok s
    | none => .error ⟨.InvalidArgs, none, none⟩

/-- `parse_ping`: at most one argument; a failed `next_arg` (missing or
non-string) degrades to a bare PING with no arguments. -/
def parse_ping (array : List Value) : Except ParseCommandError Command :=
  (expectMaxArgs .Ping array 1).bind fun _ =>
    match nextArg (array.drop 1) .Ping with
    | .ok arg => .ok (Command.new .Ping [arg] none)
    | .error _ => .ok (Command.new .Ping [] none)

/-- `parse_echo`: exactly one argument. -/
def parse_echo (array : List Value) : Except ParseCommandError Command :=
  (expectMaxArgs .Echo array 1).bind fun _ =>
    (nextArg (array.drop 1) .Echo).map fun arg => Command.new .Echo [arg] none

/-- `HashSet::insert` on the option list: add if not already present. -/
def insertOpt (o : CommandOpt) (opts : List CommandOpt) : List CommandOpt :=
  if opts.contains o then opts else opts ++ [o]

/-- The option loop of `parse_set`, walking the values after key and value:
EX/PX take a `u64` TTL (`InvalidTtl` on parse failure, `SyntaxError` when
the number is missing), NX and XX exclude each other (`SyntaxError`),
KEEPTTL is a flag, anything else is silently ignored. -/
def parseSetOpts : List Value → List CommandOpt → Except ParseCommandError (List CommandOpt)
  | [], opts => .ok opts
  | v :: rest, opts =>
    match valueToString v with
    | none => .error ⟨.InvalidArgs, none, none⟩
    | some s =>
      let o := toLowerStr s
      if o = "ex" ∨ o = "px" then
        match rest with
        | [] => .error ⟨.SyntaxError, some .Set, none⟩
        | ttlv :: rest' =>
          match valueToString ttlv with
          | none => .error ⟨.InvalidArgs, none, none⟩
          | some ts =>
            match parseU64 ts.data with
            | none => .error ⟨.InvalidTtl, some .Set, none⟩
            | some ttl =>
              parseSetOpts rest'
                (insertOpt (if o = "ex" then .SetEx ttl else .SetPx ttl) opts)
      else if o = "nx" then
        if opts.contains .SetXx then .error ⟨.SyntaxError, some .Set, none⟩
        else parseSetOpts rest (insertOpt .SetNx opts)
      else if o = "xx" then
        if opts.contains .SetNx then .error ⟨.SyntaxError, some .Set, none⟩
        else parseSetOpts rest (insertOpt .SetXx opts)
      else if o = "keepttl" then parseSetOpts rest (insertOpt .SetKeepTtl opts)
      else parseSetOpts rest opts

/-- `parse_set`: key, value, then the option loop. Lock Write. -/
def parse_set (array : List Value) : Except ParseCommandError Command :=
  (nextArg (array.drop 1) .Set).bind fun key =>
    (nextArg (array.drop 2) .Set).bind fun val =>
      (parseSetOpts (array.drop 3) []).map fun opts =>
        { action := .Set, args := [key, val], opts := opts, lock := some .Write }

/-- `parse_setex`: key, TTL (validated as `u64`, else `InvalidTtl`), value.
Lock Write. -/
def parse_setex (array : List Value) : Except ParseCommandError Command :=
  (expectMaxArgs .SetEx array 3).bind fun _ =>
    (nextArg (array.drop 1) .SetEx).bind fun key =>
      (nextArg (array.drop 2) .SetEx).bind fun ttl =>
        match parseU64 ttl.data with
        | none => .error ⟨.InvalidTtl, some .SetEx, none⟩
        | some _ =>
          (nextArg (array.drop 3) .SetEx).map fun val =>
            Command.new .SetEx [key, ttl, val] (some .Write)

/-- `parse_setnx`: key and value. Lock Write. -/
def parse_setnx (array : List Value) : Except ParseCommandError Command :=
  (expectMaxArgs .SetNx array 2).bind fun _ =>
    (nextArg (array.drop 1) .SetNx).bind fun key =>
      (nextArg (array.drop 2) .SetNx).map fun val =>
        Command.new .SetNx [key, val] (some .Write)

/-- `parse_get` of src/server/src/command.rs. Note: the max-args check is
invoked with `Action::Echo` in the source. Lock Read. -/
def parse_get (array : List Value) : Except ParseCommandError Command :=
  (expectMaxArgs .Echo array 1).bind fun _ =>
    (nextArg (array.drop 1) .Get).map fun key =>
      Command.new .Get [key] (some .Read)

/-- `parse_expire`: key and seconds; the TTL string is not validated here.
Lock Write. -/
def parse_expire (array : List Value) : Except ParseCommandError Command :=
  (expectMaxArgs .Expire array 2).bind fun _ =>
    (nextArg (array.drop 1) .Expire).bind fun key =>
      (nextArg (array.drop 2) .Expire).map fun ttl =>
        Command.new .Expire [key, ttl] (some .Write)

/-- `parse_pexpire` of src/server/src/command.rs: errors carry
`Action::PExpire`, but the command built on success is tagged
`Action::Expire`. Lock Write. -/
def parse_pexpire (array : List Value) : Except ParseCommandError Command :=
  (expectMaxArgs .PExpire array 2).bind fun _ =>
    (nextArg (array.drop 1) .PExpire).bind fun key =>
      (nextArg (array.drop 2) .PExpire).map fun ttl =>
        Command.new .Expire [key, ttl] (some .Write)

/-- `parse_ttl`: one key. Lock Read. -/
def parse_ttl (array : List Value) : Except ParseCommandError Command :=
  (expectMaxArgs .Ttl array 1).bind fun _ =>
    (nextArg (array.drop 1) .Ttl).map fun key =>
      Command.new .Ttl [key] (some .Read)

/-- `parse_multi`: zero arguments, lock None. -/
def parse_multi (array : List Value) : Except ParseCommandError Command :=
  (expectMaxArgs .Multi array 0).map fun _ => Command.new .Multi [] none

/-- `parse_exec`: zero arguments, lock None. -/
def parse_exec (array : List Value) : Except ParseCommandError Command :=
  (expectMaxArgs .Exec array 0).map fun _ => Command.new .Exec [] none

/-- `parse_discard`: zero arguments, lock None. -/
def parse_discard (array : List Value) : Except ParseCommandError Command :=
  (expectMaxArgs .Discard array 0).map fun _ => Command.new .Discard [] none

/-- The key loop of `parse_watch`: stringify every remaining value,
`InvalidArgs` carrying `Action::Watch` on a non-string. -/
def parseWatchKeys : List Value → Except ParseCommandError (List String)
  | [] => .ok []
  | v :: rest =>
    match valueToString v with
    | none => .error ⟨.InvalidArgs, some .Watch, none⟩
    | some s => (parseWatchKeys rest).map fun ks => s :: ks

/-- `parse_watch`: any number of keys, lock None. -/
def parse_watch (array : List Value) : Except ParseCommandError Command :=
  (parseWatchKeys (array.drop 1)).map fun keys => Command.new .Watch keys none

/-- `parse_unwatch`: zero arguments, lock None. -/
def parse_unwatch (array : List Value) : Except ParseCommandError Command :=
  (expectMaxArgs .Unwatch array 0).map fun _ => Command.new .Unwatch [] none

/-- `Command::from_resp`: the request must be an Array; its first element a
Bulk String naming the action; then the per-action parser runs. -/
def Command.from_resp (v : Value) : Except ParseCommandError Command :=
  match v with
  | .array array =>
    match array.head? with
    | none => .error ⟨.IsEmpty, none, none⟩
    | some (.bulkString cmd) =>
      (Action.parse cmd).bind fun action =>
        match action with
        | .Ping => parse_ping array
        | .Echo => parse_echo array
        | .Set => parse_set array
        | .SetEx => parse_setex array
        | .SetNx => parse_setnx array
        | .Get => parse_get array
        | .Expire => parse_expire array
        | .PExpire => parse_pexpire array
        | .Ttl => parse_ttl array
        | .Multi => parse_multi array
        | .Exec => parse_exec array
        | .Discard => parse_discard array
        | .Watch => parse_watch array
        | .Unwatch => parse_unwatch array
    | some _ => .error ⟨.InvalidCommand, none, none⟩
  | _ => .error ⟨.MustBeArray, none, none⟩

/-- enum Value of src/server/src/store.rs: stored values are 64-bit
integers or strings. -/
inductive StoreValue where
  | Int (i : Int)
  | Str (s : String)
deriving DecidableEq

/-- struct Entry of src/server/src/store.rs. `expiration` keeps only the
absolute deadline (`expires_at`, in clock milliseconds); the timer join
handle is a concurrency token with no store-level meaning. -/
structure Entry where
  value : StoreValue
  expiresAt : Option Int
  touchedAt : Int
deriving DecidableEq

/-- struct Store of src/server/src/store.rs. The two `HashMap`s are
association lists with unique keys; socket addresses are strings. -/
structure Store where
  data : List (String × Entry)
  clients : List (String × Nat)
  nextClientId : Nat
deriving DecidableEq

/-- `Store::new`. -/
def Store.new : Store := ⟨[], [], 1⟩

/-- `HashMap::get` on the data map. -/
def lookupEntry : List (String × Entry) → String → Option Entry
  | [], _ => none
  | (k', e) :: rest, k => if k' = k then some e else lookupEntry rest k

/-- `HashMap::remove` on the data map (keys are unique, so removing the
first occurrence is removal). -/
def eraseEntry : List (String × Entry) → String → List (String × Entry)
  | [], _ => []
  | (k', e) :: rest, k => if k' = k then rest else (k', e) :: eraseEntry rest k

/-- `HashMap::insert`: bind `k` to `e`, replacing any previous binding. -/
def insertEntry (d : List (String × Entry)) (k : String) (e : Entry) :
    List (String × Entry) :=
  (k, e) :: eraseEntry d k

/-- enum TTL of src/server/src/store.rs. -/
inductive TTL where
  | NoExpiration
  | KeyNotFound
  | Expires (n : Int)
deriving DecidableEq

/-- `time::Duration::whole_seconds` of a millisecond count: whole seconds,
truncated toward zero. -/
def wholeSeconds (ms : Int) : Int :=
  ms.tdiv 1000

/-- `Entry::ttl`: seconds remaining until the deadline, if there is one. -/
def Entry.ttl (now : Int) (e : Entry) : Option Int :=
  e.expiresAt.map fun t => wholeSeconds (t - now)

/-- `Store::set`: parse the raw value as a signed 64-bit decimal (`Int` on
success, `Str` otherwise); with `keep_ttl` the previous entry's expiration
is carried onto the fresh entry; `touched_at` becomes `now`. -/
def storeSet (now : Int) (s : Store) (key val : String) (keepTtl : Bool) : Store :=
  let v : StoreValue :=
    match parseI64 val.data with
    | some i => .Int i
    | none => .Str val
  let e : Entry :=
    if keepTtl then
      match (lookupEntry s.data key).bind Entry.expiresAt with
      | some t => ⟨v, some t, now⟩
      | none => ⟨v, none, now⟩
    else ⟨v, none, now⟩
  { s with data := insertEntry s.data key e }

/-- `Store::get`. -/
def storeGet (s : Store) (key : String) : Option StoreValue :=
  (lookupEntry s.data key).map Entry.value

/-- `Store::remove`: whether a key existed, and the store without it. -/
def storeRemove (s : Store) (key : String) : Option Unit × Store :=
  ((lookupEntry s.data key).map fun _ => (),
    { s with data := eraseEntry s.data key })

/-- `Store::expire`: when the key exists, attach the new absolute deadline
and touch the entry; absent keys are untouched and report `none`. -/
def storeExpire (now : Int) (s : Store) (key : String) (expiresAt : Int) :
    Option Unit × Store :=
  match lookupEntry s.data key with
  | some e =>
    (some (), { s with data := insertEntry s.data key ⟨e.value, some expiresAt, now⟩ })
  | none => (none, s)

/-- `Store::ttl`. -/
def storeTtl (now : Int) (s : Store) (key : String) : TTL :=
  match lookupEntry s.data key with
  | some e =>
    match e.ttl now with
    | some n => .Expires n
    | none => .NoExpiration
  | none => .KeyNotFound

/-- `Store::last_touched`. -/
def lastTouched (s : Store) (key : String) : Option Int :=
  (lookupEntry s.data key).map Entry.touchedAt

/-- `Store::add_client`: hand out the next monotonic client id. -/
def addClient (s : Store) (addr : String) : Nat × Store :=
  (s.nextClientId,
    { s with clients := (addr, s.nextClientId) :: s.clients,
             nextClientId := s.nextClientId + 1 })

/-- struct Transaction of src/server/src/transaction.rs. -/
structure Transaction where
  error : Bool
  queue : List Command
deriving DecidableEq

/-- `Transaction::new`. -/
def Transaction.new : Transaction := ⟨false, []⟩

/-- `Transaction::push` (Vec::push appends). -/
def Transaction.push (t : Transaction) (cmd : Command) : Transaction :=
  { t with queue := t.queue ++ [cmd] }

/-- The dispatcher's response values. The `resp::Value` the server links
against carries a `Null` variant (main.rs constructs `resp::Value::Null`),
which the codec enum of src/resp/src/lib.rs does not; responses therefore
get their own type here. -/
inductive Resp where
  | simpleString (s : String)
  | bulkString (s : String)
  | error (s : String)
  | integer (i : Int)
  | null
  | array (l : List Resp)

/-- `u64 as i64`: two's-complement wrap of an unsigned 64-bit value. -/
def u64AsI64 (n : Nat) : Int :=
  if n < 2 ^ 63 then (n : Int) else (n : Int) - 2 ^ 64

/-- `execute_cmd` of src/server/src/main.rs: the lock-free commands. Any
other action `panic!`s (`none`). -/
def execute_cmd (cmd : Command) : Option Resp :=
  match cmd.action with
  | .Ping =>
    match cmd.args.head? with
    | some arg => some (.bulkString arg)
    | none => some (.simpleString "PONG")
  | .Echo => some (.bulkString (cmd.args.head?.getD ""))
  | _ => none

/-- `execute_get`: the stored value rendered as a bulk string (integers in
decimal), Null when absent; `unwrap()` of the key argument may panic. -/
def execute_get (s : Store) (cmd : Command) : Option Resp :=
  (cmd.args.head?).map fun key =>
    match storeGet s key with
    | some (.Int i) => .bulkString (String.mk (intToChars i))
    | some (.Str str) => .bulkString str
    | none => .null

/-- `execute_ttl`: seconds remaining, `-1` without expiration, `-2` for a
missing key. -/
def execute_ttl (now : Int) (s : Store) (cmd : Command) : Option Resp :=
  (cmd.args.head?).map fun key =>
    .integer
      (match storeTtl now s key with
      | .Expires n => n
      | .NoExpiration => -1
      | .KeyNotFound => -2)

/-- `execute_read_cmd`: GET and TTL; anything else `panic!`s. -/
def execute_read_cmd (now : Int) (s : Store) (cmd : Command) : Option Resp :=
  match cmd.action with
  | .Get => execute_get s cmd
  | .Ttl => execute_ttl now s cmd
  | _ => none

/-- The option fold at the top of `execute_set` (EX seconds are converted
to milliseconds; the later of EX/PX wins, in the iteration order of the
option set, modelled as insertion order). -/
structure SetFlags where
  maybeTtl : Option Nat
  keepTtl : Bool
  xx : Bool
  nx : Bool

/-- Fold the recognized SET options into flags. -/
def foldSetOpts (opts : List CommandOpt) : SetFlags :=
  opts.foldl
    (fun f o =>
      match o with
      | .SetEx ttlSec => { f with maybeTtl := some (ttlSec * 1000) }
      | .SetPx ttlMs => { f with maybeTtl := some ttlMs }
      | .SetKeepTtl => { f with keepTtl := true }
      | .SetXx => { f with xx := true }
      | .SetNx => { f with nx := true })
    ⟨none, false, false, false⟩

/-- The shared write path of `execute_set`: store the value, then arm the
expiration when a TTL option was present (`Expiration::new` computes the
absolute deadline `now + ttl`; the `u64 as i64` cast wraps). -/
def setAndArm (now : Int) (s : Store) (key val : String) (f : SetFlags) : Store :=
  let s1 := storeSet now s key val f.keepTtl
  match f.maybeTtl with
  | some ttl => (storeExpire now s1 key (now + u64AsI64 ttl)).2
  | none => s1

/-- `execute_set` of src/server/src/main.rs: XX and NX gate on presence and
reply Integer 1/0; the plain path replies "OK". The two leading `unwrap()`
calls on the drained arguments may panic. -/
def execute_set (now : Int) (s : Store) (cmd : Command) : Option (Resp × Store) :=
  (cmd.args.head?).bind fun key =>
    (cmd.args[1]?).map fun val =>
      let f := foldSetOpts cmd.opts
      if f.xx then
        match storeGet s key with
        | some _ => (.integer 1, setAndArm now s key val f)
        | none => (.integer 0, s)
      else if f.nx then
        match storeGet s key with
        | none => (.integer 1, setAndArm now s key val f)
        | some _ => (.integer 0, s)
      else (.simpleString "OK", setAndArm now s key val f)

/-- `execute_setex`: key, TTL and value drained positionally; the TTL is
re-parsed as `i64` and `unwrap()`ed (the panic is the `none` outcome);
the deadline is `now + ttl` seconds. -/
def execute_setex (now : Int) (s : Store) (cmd : Command) : Option (Resp × Store) :=
  (cmd.args.head?).bind fun key =>
    (cmd.args[1]?).bind fun ttlStr =>
      (parseI64 ttlStr.data).bind fun ttl =>
        (cmd.args[2]?).map fun val =>
          let s1 := storeSet now s key val false
          (.simpleString "OK", (storeExpire now s1 key (now + ttl * 1000)).2)

/-- `execute_setnx`: Integer 0 when the key is present (the value argument
is left undrained), otherwise store and reply Integer 1. -/
def execute_setnx (now : Int) (s : Store) (cmd : Command) : Option (Resp × Store) :=
  (cmd.args.head?).bind fun key =>
    match storeGet s key with
    | some _ => some (.integer 0, s)
    | none =>
      (cmd.args[1]?).map fun val => (.integer 1, storeSet now s key val false)

/-- `execute_expire` of src/server/src/main.rs (also the PEXPIRE path via
`as_ms`): the TTL argument is re-parsed as `i64` and `unwrap()`ed (panic =
`none`); a negative TTL removes the key (Integer 1/0 by presence);
otherwise the deadline is `now` plus seconds or milliseconds. -/
def execute_expire (now : Int) (s : Store) (cmd : Command) (asMs : Bool) :
    Option (Resp × Store) :=
  (cmd.args.head?).bind fun key =>
    (cmd.args[1]?).bind fun ttlStr =>
      (parseI64 ttlStr.data).map fun (ttl : Int) =>
        if ttl < 0 then
          let p := storeRemove s key
          (.integer (match p.1 with | some _ => 1 | none => 0), p.2)
        else
          let dur := if asMs then ttl else ttl * 1000
          let p := storeExpire now s key (now + dur)
          (.integer (match p.1 with | some _ => 1 | none => 0), p.2)

/-- `execute_write_cmd`: the five mutating actions; anything else
`panic!`s. -/
def execute_write_cmd (now : Int) (s : Store) (cmd : Command) :
    Option (Resp × Store) :=
  match cmd.action with
  | .Set => execute_set now s cmd
  | .SetEx => execute_setex now s cmd
  | .SetNx => execute_setnx now s cmd
  | .Expire => execute_expire now s cmd false
  | .PExpire => execute_expire now s cmd true
  | _ => none

/-- The body of `create_expiration_task` after the sleep, under the write
lock: re-read the TTL; a strictly positive remaining TTL aborts, every
other outcome falls through to `store.remove(&key)`. -/
def expirationWake (now : Int) (key : String) (s : Store) : Store :=
  match storeTtl now s key with
  | .Expires ttl => if 0 < ttl then s else (storeRemove s key).2
  | _ => (storeRemove s key).2

/-- Dispatch one command under the lock mode its classification selects
(the body of the closure in `execute_transaction`, and of the default arm
of the connection loop). -/
def dispatchLocked (now : Int) (s : Store) (cmd : Command) : Option (Resp × Store) :=
  match cmd.lock with
  | some .Read => (execute_read_cmd now s cmd).map fun r => (r, s)
  | some .Write => execute_write_cmd now s cmd
  | none => (execute_cmd cmd).map fun r => (r, s)

/-- Drain the transaction queue in order, collecting each command's
response and threading the store. -/
def runQueue (now : Int) (s : Store) : List Command → Option (List Resp × Store)
  | [] => some ([], s)
  | cmd :: rest =>
    (dispatchLocked now s cmd).bind fun (r, s') =>
      (runQueue now s' rest).map fun p => (r :: p.1, p.2)

/-- The WATCH abort test of `execute_transaction`: some watched key has a
`last_touched` at or after the moment the watch started. -/
def watchAborts (s : Store) (watch : List (String × Int)) : Bool :=
  watch.any fun kw =>
    match lastTouched s kw.1 with
    | some t => kw.2 ≤ t
    | none => false

/-- `execute_transaction` of src/server/src/main.rs: under the single write
lock, check every watch entry first — on violation reply Null with the
store untouched and nothing executed — otherwise drain the queue in
enqueue order and reply the Array of responses. -/
def execute_transaction (now : Int) (trx : Transaction)
    (watch : List (String × Int)) (s : Store) : Option (Resp × Store) :=
  if watchAborts s watch then some (.null, s)
  else (runQueue now s trx.queue).map fun p => (.array p.1, p.2)

/-- Per-connection dispatcher state: the optional open transaction and the
watch list (main.rs `connection_loop` locals). -/
structure ConnState where
  transaction : Option Transaction
  watch : List (String × Int)

/-- The `Action::Exec` arm of the connection loop: with an open transaction,
take it, run it, and clear the watch list afterwards in every case; with no
transaction reply Null (watch untouched). -/
def stepExec (now : Int) (s : Store) (c : ConnState) :
    Option (Resp × ConnState × Store) :=
  match c.transaction with
  | some trx =>
    (execute_transaction now trx c.watch s).map fun p => (p.1, ⟨none, []⟩, p.2)
  | none => some (.null, c, s)

/-- The `Action::Discard` arm of the connection loop: with an open
transaction, drop it and reply "OK"; otherwise Null. The store is never
consulted and the watch list is left as it was. -/
def stepDiscard (s : Store) (c : ConnState) : Resp × ConnState × Store :=
  match c.transaction with
  | some _ => (.simpleString "OK", { c with transaction := none }, s)
  | none => (.null, c, s)

mutual
/-- The subset of RSP values on which the amended codec roundtrip holds:
simple-string and error payloads contain no LF and carry no trailing
whitespace (so `trim_end` leaves them intact), and the numeric fields fit
the Rust machine types (`i64` payloads, `usize` lengths) as they always do
for values built by the source. -/
def validV : Value → Bool
  | .simpleString s =>
    (s.data.all fun c => c ≠ '\n') && (trimEnd s.data == s.data)
  | .error s =>
    (s.data.all fun c => c ≠ '\n') && (trimEnd s.data == s.data)
  | .integer i => (-(2 ^ 63) ≤ i) && (i ≤ 2 ^ 63 - 1)
  | .bulkString s => utf8Len s.data < 2 ^ 64
  | .array l => (l.length < 2 ^ 64) && validListV l

/-- `validV` on every element of an array. -/
def validListV : List Value → Bool
  | [] => true
  | v :: vs => validV v && validListV vs
end

/-! ### Decimal printing and parsing -/

theorem parseDigitsAux_append (l1 l2 : List Char) (a : Nat) :
    parseDigitsAux (l1 ++ l2) a =
      match parseDigitsAux l1 a with
      | some b => parseDigitsAux l2 b
      | none => none := by
  induction l1 generalizing a with
  | nil => simp [parseDigitsAux]
  | cons c cs ih =>
    simp only [List.cons_append, parseDigitsAux]
    by_cases h : c.isDigit
    · simp only [h, if_true]
      exact ih _
    · simp [h]

theorem digitChar_isDigit {d : Nat} (h : d < 10) :
    (Nat.digitChar d).isDigit = true := by
  interval_cases d <;> decide

theorem digitChar_toNat {d : Nat} (h : d < 10) :
    (Nat.digitChar d).toNat - 48 = d := by
  interval_cases d <;> decide

theorem digitChar_not_ws {d : Nat} (h : d < 10) :
    rustIsWhitespace (Nat.digitChar d) = false := by
  interval_cases d <;> decide

theorem digitChar_ne_lf {d : Nat} (h : d < 10) : Nat.digitChar d ≠ '\n' := by
  interval_cases d <;> decide

theorem digitChar_ne_plus {d : Nat} (h : d < 10) : Nat.digitChar d ≠ '+' := by
  interval_cases d <;> decide

theorem digitChar_ne_minus {d : Nat} (h : d < 10) : Nat.digitChar d ≠ '-' := by
  interval_cases d <;> decide

theorem parseDigitsAux_map (ds : List Nat) (hds : ∀ d ∈ ds, d < 10) (a : Nat) :
    parseDigitsAux (ds.map Nat.digitChar) a =
      some (ds.foldl (fun x d => x * 10 + d) a) := by
  induction ds generalizing a with
  | nil => simp [parseDigitsAux]
  | cons d ds ih =>
    have hd : d < 10 := hds d (by simp)
    simp only [List.map_cons, parseDigitsAux, digitChar_isDigit hd, if_true,
      List.foldl_cons]
    rw [digitChar_toNat hd]
    exact ih (fun x hx => hds x (by simp [hx])) _

theorem foldr_digits (n : Nat) :
    (Nat.digits 10 n).foldr (fun d x => x * 10 + d) 0 = n := by
  induction n using Nat.strong_induction_on with
  | _ n ih =>
    rcases Nat.eq_zero_or_pos n with rfl | hn
    · simp
    · rw [Nat.digits_def' (by norm_num : (1 : Nat) < 10) hn]
      simp only [List.foldr_cons]
      rw [ih (n / 10) (Nat.div_lt_self hn (by norm_num))]
      omega

theorem foldl_reverse_digits (n : Nat) :
    (Nat.digits 10 n).reverse.foldl (fun x d => x * 10 + d) 0 = n := by
  rw [List.foldl_reverse]
  exact foldr_digits n

theorem natToCharsAux_spec (fuel : Nat) : ∀ n acc, n ≤ fuel →
    natToCharsAux fuel n acc =
      (Nat.digits 10 n).reverse.map Nat.digitChar ++ acc := by
  induction fuel with
  | zero =>
    intro n acc hn
    interval_cases n
    simp [natToCharsAux]
  | succ f ih =>
    intro n acc hn
    by_cases h0 : n = 0
    · subst h0
      simp [natToCharsAux]
    · have hpos : 0 < n := Nat.pos_of_ne_zero h0
      have hlt : n / 10 < n := Nat.div_lt_self hpos (by norm_num)
      rw [natToCharsAux, if_neg h0, ih (n / 10) _ (by omega),
        Nat.digits_def' (by norm_num : (1 : Nat) < 10) hpos]
      simp [List.append_assoc]

theorem natToChars_eq (n : Nat) (hn : n ≠ 0) :
    natToChars n = (Nat.digits 10 n).reverse.map Nat.digitChar := by
  unfold natToChars
  rw [if_neg hn, natToCharsAux_spec n n _ le_rfl, List.append_nil]

theorem natToChars_mem {n : Nat} {c : Char} (hc : c ∈ natToChars n) :
    ∃ d, d < 10 ∧ c = Nat.digitChar d := by
  by_cases hn : n = 0
  · subst hn
    rw [show natToChars 0 = ['0'] from rfl, List.mem_singleton] at hc
    exact ⟨0, by norm_num, by subst hc; decide⟩
  · rw [natToChars_eq n hn] at hc
    simp only [List.mem_map, List.mem_reverse] at hc
    obtain ⟨d, hd, rfl⟩ := hc
    exact ⟨d, Nat.digits_lt_base (by norm_num) hd, rfl⟩

theorem natToChars_ne_nil (n : Nat) : natToChars n ≠ [] := by
  by_cases hn : n = 0
  · subst hn
    decide
  · rw [natToChars_eq n hn]
    simp only [ne_eq, List.map_eq_nil_iff, List.reverse_eq_nil_iff]
    simp [Nat.digits_ne_nil_iff_ne_zero, hn]

theorem parseDigits_cons (c : Char) (cs : List Char) :
    parseDigits (c :: cs) = parseDigitsAux (c :: cs) 0 := rfl

theorem parseDigits_natToChars (n : Nat) : parseDigits (natToChars n) = some n := by
  by_cases hn : n = 0
  · subst hn
    decide
  · cases hcs : natToChars n with
    | nil => exact absurd hcs (natToChars_ne_nil n)
    | cons c rest =>
      rw [parseDigits_cons, ← hcs, natToChars_eq n hn]
      rw [parseDigitsAux_map _
        (fun d hd => Nat.digits_lt_base (by norm_num) (List.mem_reverse.mp hd))]
      rw [foldl_reverse_digits]

theorem parseU64_natToChars {n : Nat} (h : n < 2 ^ 64) :
    parseU64 (natToChars n) = some n := by
  cases hcs : natToChars n with
  | nil => exact absurd hcs (natToChars_ne_nil n)
  | cons c rest =>
    obtain ⟨d, hd, rfl⟩ := natToChars_mem (c := c) (by rw [hcs]; simp)
    simp only [parseU64, if_neg (digitChar_ne_plus hd), if_neg (digitChar_ne_minus hd)]
    rw [← hcs, parseDigits_natToChars]
    simp only [Option.bind_eq_bind, Option.some_bind]
    rw [if_pos h]

theorem parseI64_intToChars {i : Int} (h1 : -(2 ^ 63) ≤ i) (h2 : i ≤ 2 ^ 63 - 1) :
    parseI64 (intToChars i) = some i := by
  unfold intToChars
  by_cases hi : i < 0
  · rw [if_pos hi, parseI64, if_neg (by decide), if_pos rfl, parseDigits_natToChars]
    have habs : i.natAbs ≤ 2 ^ 63 := by omega
    simp only [Option.bind_eq_bind, Option.some_bind, if_pos habs, Option.some.injEq]
    omega
  · rw [if_neg hi]
    cases hcs : natToChars i.toNat with
    | nil => exact absurd hcs (natToChars_ne_nil i.toNat)
    | cons c rest =>
      obtain ⟨d, hd, rfl⟩ := natToChars_mem (c := c) (by rw [hcs]; simp)
      simp only [parseI64, if_neg (digitChar_ne_plus hd), if_neg (digitChar_ne_minus hd)]
      rw [← hcs, parseDigits_natToChars]
      have hb : (i.toNat : Nat) ≤ 2 ^ 63 - 1 := by omega
      simp only [Option.bind_eq_bind, Option.some_bind, if_pos hb, Option.some.injEq]
      omega

/-! ### Line framing -/

theorem readLine_crlf (l : List Char) (hl : '\n' ∉ l) (rest : List Char) :
    readLine (l ++ '\r' :: '\n' :: rest) = (l ++ ['\r', '\n'], rest) := by
  induction l with
  | nil => simp [readLine]
  | cons c cs ih =>
    have hc : c ≠ '\n' := fun h => hl (by simp [h])
    have hcs : '\n' ∉ cs := fun h => hl (by simp [h])
    simp [readLine, hc, ih hcs]

theorem endsWithCrlf_append (l : List Char) :
    endsWithCrlf (l ++ ['\r', '\n']) = true := by
  simp [endsWithCrlf, List.reverse_append]

theorem dropWhile_all_false {p : Char → Bool} (l : List Char)
    (h : ∀ c ∈ l, p c = false) : l.dropWhile p = l := by
  cases l with
  | nil => rfl
  | cons c cs => simp [List.dropWhile_cons, h c (by simp)]

theorem trimEnd_no_ws (l : List Char) (h : ∀ c ∈ l, rustIsWhitespace c = false) :
    trimEnd l = l := by
  unfold trimEnd
  rw [dropWhile_all_false _ (fun c hc => h c (List.mem_reverse.mp hc)),
    List.reverse_reverse]

theorem trimEnd_append_crlf (l : List Char) :
    trimEnd (l ++ ['\r', '\n']) = trimEnd l := by
  unfold trimEnd
  rw [List.reverse_append]
  rw [show (['\r', '\n'] : List Char).reverse ++ l.reverse = '\n' :: '\r' :: l.reverse
    from rfl]
  rw [List.dropWhile_cons, if_pos (by decide), List.dropWhile_cons, if_pos (by decide)]

theorem charUtf8Size_pos (c : Char) : 1 ≤ charUtf8Size c := by
  unfold charUtf8Size
  split_ifs <;> norm_num

theorem utf8Len_cons (c : Char) (cs : List Char) :
    utf8Len (c :: cs) = charUtf8Size c + utf8Len cs := rfl

theorem takeUtf8_exact (l r : List Char) :
    takeUtf8 (utf8Len l) (l ++ r) = .ok (l, r) := by
  induction l with
  | nil =>
    cases r with
    | nil => rfl
    | cons c cs => rfl
  | cons c cs ih =>
    have hpos := charUtf8Size_pos c
    have hne : utf8Len (c :: cs) ≠ 0 := by rw [utf8Len_cons]; omega
    rw [List.cons_append, takeUtf8, if_neg hne,
      if_pos (by rw [utf8Len_cons]; omega : charUtf8Size c ≤ utf8Len (c :: cs)),
      show utf8Len (c :: cs) - charUtf8Size c = utf8Len cs from by rw [utf8Len_cons]; omega,
      ih]
    rfl

/-! ### Per-variant decode lemmas -/

theorem natToChars_no_lf (n : Nat) : '\n' ∉ natToChars n := by
  intro h
  obtain ⟨d, hd, he⟩ := natToChars_mem h
  exact digitChar_ne_lf hd he.symm

theorem natToChars_not_ws (n : Nat) :
    ∀ c ∈ natToChars n, rustIsWhitespace c = false := by
  intro c hc
  obtain ⟨d, hd, rfl⟩ := natToChars_mem hc
  exact digitChar_not_ws hd

theorem intToChars_no_lf (i : Int) : '\n' ∉ intToChars i := by
  unfold intToChars
  split_ifs
  · intro h
    rcases List.mem_cons.mp h with h | h
    · exact absurd h.symm (by decide)
    · exact natToChars_no_lf _ h
  · exact natToChars_no_lf _

theorem intToChars_not_ws (i : Int) :
    ∀ c ∈ intToChars i, rustIsWhitespace c = false := by
  unfold intToChars
  split_ifs
  · intro c hc
    rcases List.mem_cons.mp hc with rfl | hc
    · decide
    · exact natToChars_not_ws _ c hc
  · exact natToChars_not_ws _

theorem decodeSimpleString_encode (s : String) (rest : List Char)
    (h1 : '\n' ∉ s.data) (h2 : trimEnd s.data = s.data) :
    decodeSimpleString (s.data ++ '\r' :: '\n' :: rest) = .ok (.simpleString s, rest) := by
  unfold decodeSimpleString
  rw [readLine_crlf _ h1 rest]
  simp only [endsWithCrlf_append, if_true, trimEnd_append_crlf, h2]

theorem decodeError_encode (s : String) (rest : List Char)
    (h1 : '\n' ∉ s.data) (h2 : trimEnd s.data = s.data) :
    decodeError (s.data ++ '\r' :: '\n' :: rest) = .ok (.error s, rest) := by
  unfold decodeError
  rw [readLine_crlf _ h1 rest]
  simp only [endsWithCrlf_append, if_true, trimEnd_append_crlf, h2]

theorem decodeInteger_encode (i : Int) (rest : List Char)
    (hlo : -(2 ^ 63) ≤ i) (hhi : i ≤ 2 ^ 63 - 1) :
    decodeInteger (intToChars i ++ '\r' :: '\n' :: rest) = .ok (.integer i, rest) := by
  unfold decodeInteger
  rw [readLine_crlf _ (intToChars_no_lf i) rest]
  simp only [endsWithCrlf_append, if_true, trimEnd_append_crlf,
    trimEnd_no_ws _ (intToChars_not_ws i), parseI64_intToChars hlo hhi]

theorem readIntWithCrlf_natToChars (n : Nat) (hn : n < 2 ^ 64) (rest : List Char) :
    readIntWithCrlf (natToChars n ++ '\r' :: '\n' :: rest) = .ok (n, rest) := by
  unfold readIntWithCrlf
  rw [readLine_crlf _ (natToChars_no_lf n) rest]
  simp only [endsWithCrlf_append, if_true, trimEnd_append_crlf,
    trimEnd_no_ws _ (natToChars_not_ws n), parseU64_natToChars hn]

theorem decodeBulkString_encode (s : String) (rest : List Char)
    (h : utf8Len s.data < 2 ^ 64) :
    decodeBulkString
        (natToChars (utf8Len s.data) ++ '\r' :: '\n' :: (s.data ++ '\r' :: '\n' :: rest)) =
      .ok (.bulkString s, rest) := by
  unfold decodeBulkString
  rw [readIntWithCrlf_natToChars _ h]
  simp only [Except.bind]
  rw [takeUtf8_exact]
  simp only [Except.bind]
  rw [if_neg (by simp), if_pos ⟨trivial, trivial⟩]

/-- Every encoding is nonempty (it starts with its tag byte). -/
theorem encodeL_length_pos (v : Value) : 1 ≤ (encodeL v).length := by
  cases v <;> simp [encodeL]

/-! ### The decode/encode roundtrip -/

theorem doDecode_encode (fuel : Nat) :
    (∀ v rest, validV v = true → (encodeL v).length ≤ fuel →
      doDecode fuel (encodeL v ++ rest) = .ok (v, rest)) ∧
    (∀ l rest, validListV l = true → (encodeListL l).length < fuel →
      decodeList fuel l.length (encodeListL l ++ rest) = .ok (l, rest)) := by
  induction fuel with
  | zero =>
    constructor
    · intro v rest _ hlen
      have := encodeL_length_pos v
      omega
    · intro l rest _ hlen
      omega
  | succ f ih =>
    constructor
    · intro v rest hv hlen
      cases v with
      | simpleString s =>
        simp only [validV, Bool.and_eq_true, List.all_eq_true, decide_eq_true_eq,
          beq_iff_eq] at hv
        have h1 : '\n' ∉ s.data := fun h => (hv.1 '\n' h) rfl
        rw [show encodeL (.simpleString s) ++ rest =
              '+' :: (s.data ++ '\r' :: '\n' :: rest) from by simp [encodeL, crlf]]
        simp only [doDecode]
        rw [if_pos trivial]
        exact decodeSimpleString_encode s rest h1 hv.2
      | error s =>
        simp only [validV, Bool.and_eq_true, List.all_eq_true, decide_eq_true_eq,
          beq_iff_eq] at hv
        have h1 : '\n' ∉ s.data := fun h => (hv.1 '\n' h) rfl
        rw [show encodeL (.error s) ++ rest =
              '-' :: (s.data ++ '\r' :: '\n' :: rest) from by simp [encodeL, crlf]]
        simp only [doDecode]
        rw [if_pos trivial]
        exact decodeError_encode s rest h1 hv.2
      | integer i =>
        simp only [validV, Bool.and_eq_true, decide_eq_true_eq] at hv
        rw [show encodeL (.integer i) ++ rest =
              ':' :: (intToChars i ++ '\r' :: '\n' :: rest) from by simp [encodeL, crlf]]
        simp only [doDecode]
        rw [if_pos trivial]
        exact decodeInteger_encode i rest hv.1 hv.2
      | bulkString s =>
        simp only [validV, decide_eq_true_eq] at hv
        rw [show encodeL (.bulkString s) ++ rest =
              '$' :: (natToChars (utf8Len s.data) ++
                '\r' :: '\n' :: (s.data ++ '\r' :: '\n' :: rest)) from by
            simp [encodeL, crlf]]
        simp only [doDecode]
        rw [if_pos trivial]
        exact decodeBulkString_encode s rest hv
      | array a =>
        simp only [validV, Bool.and_eq_true, decide_eq_true_eq] at hv
        obtain ⟨hm, hl⟩ := hv
        rw [show encodeL (.array a) ++ rest =
              '*' :: (natToChars a.length ++
                '\r' :: '\n' :: (encodeListL a ++ rest)) from by simp [encodeL, crlf]]
        simp only [doDecode]
        rw [if_pos trivial, readIntWithCrlf_natToChars _ hm]
        simp only [Except.bind]
        have hsz : (encodeL (Value.array a)).length =
            (natToChars a.length).length + (encodeListL a).length + 3 := by
          simp [encodeL, crlf]
          omega
        have hnz : 0 < (natToChars a.length).length :=
          List.length_pos.mpr (natToChars_ne_nil a.length)
        rw [ih.2 a rest hl (by omega)]
        rfl
    · intro l rest hl hlen
      cases l with
      | nil => rfl
      | cons v vs =>
        simp only [validListV, Bool.and_eq_true] at hl
        have hcons : (encodeListL (v :: vs)).length =
            (encodeL v).length + (encodeListL vs).length := by simp [encodeListL]
        have hpos := encodeL_length_pos v
        rw [show encodeListL (v :: vs) ++ rest =
              encodeL v ++ (encodeListL vs ++ rest) from by simp [encodeListL],
          show (v :: vs).length = vs.length + 1 from rfl]
        simp only [decodeList]
        rw [ih.1 v _ hl.1 (by omega)]
        simp only [Except.bind]
        rw [ih.2 vs rest hl.2 (by omega)]
        rfl

/-- Claim C3, amended: for every RSP value whose simple-string and error
payloads contain no LF byte and end in no whitespace (`validV`; numeric
fields within their Rust machine ranges), decoding the encoding returns the
value: decode(encode(v)) = Ok(v). -/
theorem c3_decode_encode_roundtrip (v : Value) (h : validV v = true) :
    decode (encode v) = .ok v := by
  unfold decode encode
  have hm := (doDecode_encode ((encodeL v).length + 1)).1 v [] h (by omega)
  rw [List.append_nil] at hm
  rw [show (String.mk (encodeL v)).data = encodeL v from rfl, hm]
  rfl

/-- Claim C3 witness: a concrete valid value of every variant roundtrips. -/
theorem c3_decode_encode_roundtrip_witness :
    validV (Value.array [Value.integer 42, Value.bulkString "hi",
      Value.simpleString "OK", Value.error "ERR x", Value.integer (-7)]) = true ∧
    decode (encode (Value.array [Value.integer 42, Value.bulkString "hi",
      Value.simpleString "OK", Value.error "ERR x", Value.integer (-7)])) =
      .ok (Value.array [Value.integer 42, Value.bulkString "hi",
        Value.simpleString "OK", Value.error "ERR x", Value.integer (-7)]) :=
  ⟨by decide, c3_decode_encode_roundtrip _ (by decide)⟩

/-- Claim C3 counterexample: the claim as stated (all payloads free of
CRLF) fails — the payload " " contains no CRLF, yet decode(encode(·))
returns the trimmed payload "". -/
theorem c3_roundtrip_counterexample :
    decode (encode (Value.simpleString " ")) = .ok (Value.simpleString "") ∧
    Value.simpleString "" ≠ Value.simpleString " " := by
  constructor
  · rfl
  · intro h
    injection h with h'
    exact absurd h' (by decide)

/-! ### Claims about the command parser -/

/-- Claim C10: parsing a PING whose single argument element is not a Bulk
String or Simple String succeeds and yields a bare PING with an empty
argument list; parse_ping only fails — with WrongNumberArgs carrying PING —
when more than one argument (more than two array elements) is supplied. -/
theorem c10_parse_ping_lenient :
    (∀ a v : Value, valueToString v = none →
      parse_ping [a, v] = .ok (Command.new .Ping [] none)) ∧
    (∀ array : List Value,
      parse_ping array = .error ⟨.WrongNumberArgs, some .Ping, none⟩ ↔
        2 < array.length) := by
  constructor
  · intro a v hv
    simp [parse_ping, expectMaxArgs, nextArg, hv, Except.bind]
  · intro array
    constructor
    · intro h
      by_contra hlen
      push_neg at hlen
      unfold parse_ping expectMaxArgs at h
      rw [if_neg (by omega)] at h
      simp only [Except.bind, List.drop_one] at h
      cases hna : nextArg array.tail Action.Ping <;> rw [hna] at h <;> simp at h
    · intro hlen
      unfold parse_ping expectMaxArgs
      rw [if_pos (by omega)]
      rfl

/-- Claim C10 witness: PING with an Integer argument parses to a bare PING,
and three-element PING requests are rejected. -/
theorem c10_parse_ping_lenient_witness :
    parse_ping [Value.bulkString "PING", Value.integer 7] =
      .ok (Command.new .Ping [] none) ∧
    (parse_ping [Value.bulkString "PING", Value.bulkString "a", Value.bulkString "b"] =
        .error ⟨.WrongNumberArgs, some .Ping, none⟩ ↔
      2 < ([Value.bulkString "PING", Value.bulkString "a",
        Value.bulkString "b"]).length) :=
  ⟨c10_parse_ping_lenient.1 (Value.bulkString "PING") (Value.integer 7) rfl,
    c10_parse_ping_lenient.2 _⟩

/-- Claim C9: the claim fails on GET — `parse_get` runs its max-args check
with `Action::Echo`, so GET with too many arguments renders the message
naming 'echo', not 'get'. -/
theorem c9_wrong_args_carries_wrong_action :
    Command.from_resp (.array [.bulkString "GET", .bulkString "a", .bulkString "b"]) =
      .error ⟨.WrongNumberArgs, some .Echo, none⟩ ∧
    displayParseError ⟨.WrongNumberArgs, some .Echo, none⟩ =
      some "ERR wrong number of arguments for 'echo' command" ∧
    Action.Echo ≠ Action.Get :=
  ⟨rfl, rfl, by decide⟩

/-- Claim C8: the claim fails — the Action enum of src/server/src/command.rs
has no ClientId variant and `Action::parse` rejects "CLIENTID" as
UnknownCommand, although the dispatcher of main.rs has a ClientId arm. -/
theorem c8_clientid_unrecognized :
    Action.parse "CLIENTID" = .error ⟨.UnknownCommand, none, some "clientid"⟩ ∧
    Command.from_resp (.array [.bulkString "CLIENTID"]) =
      .error ⟨.UnknownCommand, none, some "clientid"⟩ :=
  ⟨rfl, rfl⟩

/-- Claim C5: the claim fails — `parse_pexpire` builds a command tagged
`Action::Expire`, so at execution time the dispatcher takes the
seconds path: arming PEXPIRE mykey 100 on a live key leaves a TTL of 100
whole seconds instead of 100 milliseconds. -/
theorem c5_pexpire_parsed_as_expire :
    parse_pexpire [.bulkString "PEXPIRE", .bulkString "mykey", .bulkString "100"] =
      .ok (Command.new .Expire ["mykey", "100"] (some .Write)) ∧
    Command.from_resp
        (.array [.bulkString "PEXPIRE", .bulkString "mykey", .bulkString "100"]) =
      .ok (Command.new .Expire ["mykey", "100"] (some .Write)) ∧
    Action.Expire ≠ Action.PExpire ∧
    storeTtl 0
        ((execute_write_cmd 0 (storeSet 0 Store.new "mykey" "v" false)
          (Command.new .Expire ["mykey", "100"] (some .Write))).getD
            (.null, Store.new)).2 "mykey" = .Expires 100 :=
  ⟨rfl, rfl, by decide, rfl⟩

/-- Claim C6: the claim fails — two well-formed requests drive the core
into an `unwrap()` panic (`none` in the embedding): EXPIRE with a
non-integer TTL (accepted by `parse_expire`, which does not validate the
TTL) and SETEX with a TTL that fits `u64` (so `parse_setex` accepts it)
but not `i64` (so `execute_setex`'s re-parse `unwrap()` panics). -/
theorem c6_core_panics_on_wellformed_input :
    Command.from_resp (.array [.bulkString "EXPIRE", .bulkString "foo",
        .bulkString "abc"]) =
      .ok (Command.new .Expire ["foo", "abc"] (some .Write)) ∧
    execute_write_cmd 0 Store.new (Command.new .Expire ["foo", "abc"] (some .Write)) =
      none ∧
    Command.from_resp (.array [.bulkString "SETEX", .bulkString "k",
        .bulkString "9223372036854775808", .bulkString "v"]) =
      .ok (Command.new .SetEx ["k", "9223372036854775808", "v"] (some .Write)) ∧
    execute_write_cmd 0 Store.new
        (Command.new .SetEx ["k", "9223372036854775808", "v"] (some .Write)) =
      none :=
  ⟨rfl, rfl, rfl, rfl⟩

/-! ### Claims about the store, expiration and transactions -/

/-- Claim C2: the claim fails on the NoExpiration re-read — the wake body
only aborts when the re-read TTL is Expires(n) with n > 0; a key whose
expiration was cleared (TTL NoExpiration) falls through and is removed. -/
theorem c2_expiration_wake_removes_unexpired_key :
    storeTtl 100 (Store.mk [("k", ⟨.Str "v", none, 0⟩)] [] 1) "k" = .NoExpiration ∧
    expirationWake 100 "k" (Store.mk [("k", ⟨.Str "v", none, 0⟩)] [] 1) =
      Store.mk [] [] 1 ∧
    storeGet (expirationWake 100 "k" (Store.mk [("k", ⟨.Str "v", none, 0⟩)] [] 1))
      "k" = none :=
  ⟨rfl, rfl, rfl⟩

/-- Claim C7: TTL replies an Integer — the remaining whole seconds of the
deadline when the key has an expiration, −1 when it exists without one,
−2 when absent — and the store's ttl reports KeyNotFound iff get is
absent. -/
theorem c7_ttl_reply (now : Int) (s : Store) (k : String) :
    (∀ e t, lookupEntry s.data k = some e → e.expiresAt = some t →
      execute_ttl now s (Command.new .Ttl [k] (some .Read)) =
        some (.integer (wholeSeconds (t - now)))) ∧
    (∀ e, lookupEntry s.data k = some e → e.expiresAt = none →
      execute_ttl now s (Command.new .Ttl [k] (some .Read)) =
        some (.integer (-1))) ∧
    (lookupEntry s.data k = none →
      execute_ttl now s (Command.new .Ttl [k] (some .Read)) =
        some (.integer (-2))) ∧
    (storeTtl now s k = .KeyNotFound ↔ storeGet s k = none) := by
  refine ⟨?_, ?_, ?_, ?_⟩
  · intro e t he ht
    simp [execute_ttl, Command.new, storeTtl, he, Entry.ttl, ht]
  · intro e he ht
    simp [execute_ttl, Command.new, storeTtl, he, Entry.ttl, ht]
  · intro he
    simp [execute_ttl, Command.new, storeTtl, he]
  · unfold storeTtl storeGet
    cases he : lookupEntry s.data k with
    | none => simp
    | some e => cases he' : Entry.ttl now e <;> simp [he']

/-- Claim C7 witness: a store with an expiring key, a persistent key and a
missing key produces Integer replies 3, −1 and −2. -/
theorem c7_ttl_reply_witness :
    execute_ttl 2000
        (Store.mk [("a", ⟨.Str "v", some 5000, 0⟩), ("b", ⟨.Int 3, none, 0⟩)] [] 1)
        (Command.new .Ttl ["a"] (some .Read)) =
      some (.integer (wholeSeconds (5000 - 2000))) ∧
    execute_ttl 2000
        (Store.mk [("a", ⟨.Str "v", some 5000, 0⟩), ("b", ⟨.Int 3, none, 0⟩)] [] 1)
        (Command.new .Ttl ["b"] (some .Read)) =
      some (.integer (-1)) ∧
    execute_ttl 2000
        (Store.mk [("a", ⟨.Str "v", some 5000, 0⟩), ("b", ⟨.Int 3, none, 0⟩)] [] 1)
        (Command.new .Ttl ["c"] (some .Read)) =
      some (.integer (-2)) :=
  ⟨(c7_ttl_reply 2000 _ "a").1 ⟨.Str "v", some 5000, 0⟩ 5000 rfl rfl,
    (c7_ttl_reply 2000 _ "b").2.1 ⟨.Int 3, none, 0⟩ rfl rfl,
    (c7_ttl_reply 2000 _ "c").2.2.1 rfl⟩

/-- Claim C4 counterexample: DISCARD inside a transaction replies "OK" and
drops the transaction, but leaves a nonempty watch list in place. -/
theorem c4_discard_counterexample :
    stepDiscard Store.new ⟨some Transaction.new, [("k", 5)]⟩ =
      (.simpleString "OK", ⟨none, [("k", 5)]⟩, Store.new) ∧
    ([(("k", 5) : String × Int)] : List (String × Int)) ≠ [] :=
  ⟨rfl, by simp⟩

/-- Claim C4, amended: for a connection in InTxn, DISCARD moves to Normal
with transaction := None and replies "OK"; no queued command runs and the
store is untouched; the watch list, however, is left unchanged. -/
theorem c4_discard (s : Store) (c : ConnState) (trx : Transaction)
    (h : c.transaction = some trx) :
    stepDiscard s c = (.simpleString "OK", ⟨none, c.watch⟩, s) := by
  unfold stepDiscard
  rw [h]

/-- Claim C4 witness. -/
theorem c4_discard_witness :
    stepDiscard Store.new ⟨some Transaction.new, [("w", 3)]⟩ =
      (.simpleString "OK", ⟨none, [("w", 3)]⟩, Store.new) :=
  c4_discard Store.new ⟨some Transaction.new, [("w", 3)]⟩ Transaction.new rfl

/-- Claim C1 counterexample: with an open transaction whose queue holds an
EXPIRE command with a non-integer TTL (queueable, since parse_expire does
not validate TTLs), EXEC panics — it returns no Array at all — even though
the WATCH check passes. -/
theorem c1_exec_counterexample :
    watchAborts Store.new [] = false ∧
    stepExec 0 Store.new
      ⟨some ⟨false, [Command.new .Expire ["k", "abc"] (some .Write)]⟩, []⟩ = none :=
  ⟨rfl, rfl⟩

/-- Claim C1, amended: for a connection in a transaction, EXEC first checks
every watched key under the single write lock — the abort condition holds
iff some (key, ws) in the watch list has last_touched(key) ≥ ws — and on
abort returns Null with the store unchanged and nothing executed; when the
check passes and every queued command executes without panicking, it
returns the Array of the queued commands' responses in enqueue order; in
both cases the watch list is cleared and the transaction dropped. -/
theorem c1_exec_watch (now : Int) (s : Store) (c : ConnState) (trx : Transaction)
    (h : c.transaction = some trx) :
    (watchAborts s c.watch = true → stepExec now s c = some (.null, ⟨none, []⟩, s)) ∧
    (watchAborts s c.watch = false →
      ∀ rs s', runQueue now s trx.queue = some (rs, s') →
        stepExec now s c = some (.array rs, ⟨none, []⟩, s')) ∧
    (watchAborts s c.watch = true ↔
      ∃ kw ∈ c.watch, ∃ t, lastTouched s kw.1 = some t ∧ kw.2 ≤ t) := by
  refine ⟨?_, ?_, ?_⟩
  · intro ha
    simp only [stepExec, h]
    unfold execute_transaction
    rw [if_pos ha]
    rfl
  · intro ha rs s' hrun
    simp only [stepExec, h]
    unfold execute_transaction
    rw [if_neg (by simp [ha]), hrun]
    rfl
  · unfold watchAborts
    rw [List.any_eq_true]
    constructor
    · rintro ⟨kw, hkw, hc⟩
      refine ⟨kw, hkw, ?_⟩
      cases hl : lastTouched s kw.1 with
      | none => rw [hl] at hc; exact absurd hc (by simp)
      | some t =>
        rw [hl] at hc
        exact ⟨t, rfl, by simpa using hc⟩
    · rintro ⟨kw, hkw, t, hl, hle⟩
      exact ⟨kw, hkw, by rw [hl]; simpa using hle⟩

/-- Claim C1 witness: a watched key touched at 10 after a watch started at
5 aborts EXEC (Null, store unchanged, watch cleared); with no watch, a
queued PING replays to an Array. -/
theorem c1_exec_watch_witness :
    stepExec 7 (Store.mk [("k", ⟨.Str "v", none, 10⟩)] [] 1)
        ⟨some ⟨false, [Command.new .Ping [] none]⟩, [("k", 5)]⟩ =
      some (.null, ⟨none, []⟩, Store.mk [("k", ⟨.Str "v", none, 10⟩)] [] 1) ∧
    stepExec 7 Store.new ⟨some ⟨false, [Command.new .Ping [] none]⟩, []⟩ =
      some (.array [.simpleString "PONG"], ⟨none, []⟩, Store.new) :=
  ⟨(c1_exec_watch 7 (Store.mk [("k", ⟨.Str "v", none, 10⟩)] [] 1)
      ⟨some ⟨false, [Command.new .Ping [] none]⟩, [("k", 5)]⟩
      ⟨false, [Command.new .Ping [] none]⟩ rfl).1 rfl,
    (c1_exec_watch 7 Store.new ⟨some ⟨false, [Command.new .Ping [] none]⟩, []⟩
      ⟨false, [Command.new .Ping [] none]⟩ rfl).2.1 rfl
      [.simpleString "PONG"] Store.new rfl⟩

end Kyev
